import Mathlib

/-!
Verification development for the kielo-convo-generator pipeline.

Shallow embedding of the core pipeline logic:
* voice-assignment solver (`assign_voice_ids`, `assign_podcast_voice_ids`
  from generate_ideas_json.py),
* identifier normalizer (`slugify` from generate_scripts.py and
  generate_conversations.py),
* asset matcher (`common_names` from generate_videos.py),
* script-generation stage runner (`generate_conversation`, `save_scripts`,
  `process_ideas_file` from generate_scripts.py),
* TTS loader (`load_dialogue_data`, `process_scripts_directory` from
  tts_generator.py),
* video post-production pipeline (`batch_process_videos` from
  generate_subtitled_videos.py).

Randomness (`random.choice`) is modelled by an arbitrary natural-number
seed reduced modulo the candidate-list length, so theorems quantify over
every possible random outcome.  Python exceptions are modelled with
`Except`; caught exceptions are folded into the return value exactly
where the source catches them.
-/

namespace Kielo

/-! ### Python string lowering

`pyLower` models Python `str.lower()` restricted to the alphabet that
occurs in this repository (ASCII plus the Finnish/Latin vowels Ä, Ö, Å, É);
all other characters are fixed, as Python fixes them. -/

/-- Lower-case one character the way Python `str.lower()` does on the
alphabet used by this repository. -/
def pyLower (c : Char) : Char :=
  if 'A' ≤ c ∧ c ≤ 'Z' then Char.ofNat (c.toNat + 32)
  else if c = 'Ä' then 'ä'
  else if c = 'Ö' then 'ö'
  else if c = 'Å' then 'å'
  else if c = 'É' then 'é'
  else c

/-- Model of Python `str.lower()`: lower every character. -/
def sLower (s : String) : String := ⟨s.data.map pyLower⟩

/-! ### Voice pool (generate_ideas_json.py, `VOICES`)

A voice dictionary from the source.  The `age` key is absent for one pool
entry, hence `Option`; Python's `v.get("age", "")` becomes `(age).getD ""`. -/

structure Voice where
  name : String
  gender : String
  age : Option String
  description : String
  voice_id : String
deriving DecidableEq, Repr, Inhabited

/-- Placeholder voice used as the (unreachable) default of list indexing;
the candidate list handed to `random.choice` is proved non-empty. -/
def dummyVoice : Voice := ⟨"", "", none, "", ""⟩

/-- Consolidated voice pool, transcribed from `VOICES` in
generate_ideas_json.py (descriptions abridged; they are never read by the
solver). -/
def VOICES : List Voice := [
  ⟨"Aurora Voice", "female", some "young adult",
    "Young Finnish friendly and professional voice.", "YSabzCJMvEHDduIDMdwV"⟩,
  ⟨"Jussi - Strong finnish Accent", "male", some "young adult",
    "Finnish young male voice with a strong accent.", "dlbXHgJnwobU5JdZ8F5M"⟩,
  ⟨"Mark - ConvoAI", "male", some "adult",
    "soft and calm", "1SM7GgM6IMuvQlz2BwM3"⟩,
  ⟨"ScheilaSMTy", "female", none,
    "Middle aged Brazilian female.", "cyD08lEy76q03ER1jZ7y"⟩,
  ⟨"Rahul Bharadwaj - Highly Energetic Voice", "male", some "middle-aged",
    "Middle-aged Indian voice.", "u7bRcYbD7visSINTyAT8"⟩,
  ⟨"Grandpa Spuds Oxley", "male", some "senior",
    "A friendly grandpa.", "NOpBlnGInO9m6vDvFkFC"⟩,
  ⟨"Hope - Smooth talker", "female", some "adult",
    "A conversational, soft-spoken voice.", "1SM7GgM6IMuvQlz2BwM3"⟩,
  ⟨"Grandma Rachel", "female", some "senior",
    "A friendly grandma.", "0rEo3eAjssGDUCXHYENf"⟩,
  ⟨"Gretchen - Valley Girl & Ditzy", "female", some "kid",
    "Valley girl voice.", "JVVJ6VsnUPJAdfGmEBGP"⟩,
  ⟨"Brayden - Conversational Older Teen", "male", some "teenager",
    "A deep-voiced male teenager.", "3XOBzXhnDY98yeWQ3GdM"⟩]

/-- Character dictionary of an idea; every key may be absent (the source
uses `char.get(...)` with defaults for `gender` and `age`). -/
structure IdeaChar where
  name : Option String
  role : Option String
  gender : Option String
  age : Option String
  default_tone : Option String
deriving DecidableEq, Repr

/-- Gender-and-age tier of the relaxation: the source's first `matching`
list comprehension
`[v for v in VOICES if v.get("gender","").lower() == gender and v.get("age","").lower() == age]`. -/
def tierGA (c : IdeaChar) : List Voice :=
  VOICES.filter (fun v =>
    sLower v.gender == sLower (c.gender.getD "unknown") &&
    sLower (v.age.getD "") == sLower (c.age.getD ""))

/-- Gender-only tier of the relaxation: the source's second `matching`
list comprehension. -/
def tierG (c : IdeaChar) : List Voice :=
  VOICES.filter (fun v => sLower v.gender == sLower (c.gender.getD "unknown"))

/-- Three-tier candidate relaxation of `assign_voice_ids`
(generate_ideas_json.py lines 191-201): gender+age match when the
character's lowered age string is non-empty (Python `if age:`), else
gender-only match, else the whole pool. -/
def matchingTier (c : IdeaChar) : List Voice :=
  let m1 := if sLower (c.age.getD "") ≠ "" then tierGA c else []
  let m2 := if m1.isEmpty then tierG c else m1
  if m2.isEmpty then VOICES else m2

/-- Tier candidates with the idea's used voice_ids removed: the source's
`available_voices` comprehension
`[v for v in matching if v["voice_id"] not in used_voice_ids]`. -/
def tierMinusUsed (c : IdeaChar) (used : Finset String) : List Voice :=
  (matchingTier c).filter (fun v => decide (v.voice_id ∉ used))

/-- Whole pool with the idea's used voice_ids removed: the source's
fallback comprehension `[v for v in VOICES if v["voice_id"] not in used_voice_ids]`. -/
def poolMinusUsed (used : Finset String) : List Voice :=
  VOICES.filter (fun v => decide (v.voice_id ∉ used))

/-- Candidate list handed to `random.choice` (generate_ideas_json.py
lines 203-210): tier candidates minus used ids; if empty, the whole pool
minus used ids; if that is also empty, the unfiltered pool
(`random.choice(available_voices) if available_voices else random.choice(VOICES)`). -/
def availableList (c : IdeaChar) (used : Finset String) : List Voice :=
  let available := tierMinusUsed c used
  let available2 := if available.isEmpty then poolMinusUsed used else available
  if available2.isEmpty then VOICES else available2

/-- One solver pick: `random.choice(available_voices)` with the random
draw modelled as an arbitrary seed `r` taken modulo the list length. -/
def pickVoice (r : Nat) (c : IdeaChar) (used : Finset String) : Voice :=
  let l := availableList c used
  l.getD (r % l.length) dummyVoice

/-- Inner loop of `assign_voice_ids` over the characters of one idea,
threading the set of voice_ids already used within that idea; `rnd`
supplies the random draw of step `n`.  Returns the assigned voice_ids in
character order. -/
def assignIdea (rnd : Nat → Nat) : Nat → List IdeaChar → Finset String → List String
  | _, [], _ => []
  | n, c :: rest, used =>
    let v := pickVoice (rnd n) c used
    v.voice_id :: assignIdea rnd (n + 1) rest (insert v.voice_id used)

/-- Model of `assign_voice_ids` (generate_ideas_json.py lines 178-214):
each idea (given by its character list) starts from an empty used set. -/
def assign_voice_ids (rnd : Nat → Nat) (ideas : List (List IdeaChar)) : List (List String) :=
  ideas.map (fun chars => assignIdea rnd 0 chars ∅)

/-- Candidate list that the claim's own wording prescribes for the
fallback: if removing used ids empties the tier set, fall back to the
unfiltered, duplicate-permitting pool.  Written from the spec sentence,
to be compared with `availableList` (which is written from the source). -/
def availableListClaimC1 (c : IdeaChar) (used : Finset String) : List Voice :=
  let available := (matchingTier c).filter (fun v => decide (v.voice_id ∉ used))
  if available.isEmpty then VOICES else available

/-! ### Concrete inputs for the solver claims -/

/-- Character with gender male, age adult (its gender+age tier in the pool
is exactly the entry "Mark - ConvoAI"). -/
def charMaleAdult : IdeaChar := ⟨some "Mikko", none, some "male", some "adult", none⟩

/-- Character with gender female, age adult (its gender+age tier in the
pool is exactly the entry "Hope - Smooth talker"). -/
def charFemaleAdult : IdeaChar := ⟨some "Liisa", none, some "female", some "adult", none⟩

/-- Used-set containing the voice_id shared by the pool entries
"Mark - ConvoAI" and "Hope - Smooth talker". -/
def usedMarkId : Finset String := {"1SM7GgM6IMuvQlz2BwM3"}

/-- Ten characters whose (gender, age) pairs are exactly those of the ten
pool entries, so a perfect attribute matching between characters and pool
voices exists. -/
def chars10 : List IdeaChar :=
  VOICES.map (fun v => ⟨some v.name, none, some v.gender, v.age, none⟩)

/-- Set of distinct voice_ids occurring in the pool. -/
def poolIds : Finset String := (VOICES.map Voice.voice_id).toFinset

/-! ### Identifier normalizer (slugify)

generate_scripts.py: `re.sub(r'[^a-z0-9äö]+', '-', title.lower()).strip('-')`
generate_conversations.py: `re.sub(r'[^a-z0-9]+', '-', title.lower()).strip('-')`

The regex substitution replaces every maximal run of characters outside
the class by a single hyphen; this is modelled as a character-wise map to
`'-'` followed by collapsing adjacent hyphens (every maximal disallowed
run becomes a maximal hyphen run, then a single hyphen), and `strip('-')`
removes hyphens from both ends. -/

/-- Character class `[a-z0-9äö]` of the localized slugify variant,
written out as the set of characters the ranges denote. -/
def slugChars : List Char :=
  ['a', 'b', 'c', 'd', 'e', 'f', 'g', 'h', 'i', 'j', 'k', 'l', 'm',
   'n', 'o', 'p', 'q', 'r', 's', 't', 'u', 'v', 'w', 'x', 'y', 'z',
   '0', '1', '2', '3', '4', '5', '6', '7', '8', '9', 'ä', 'ö']

/-- Character class `[a-z0-9]` of the ASCII-only slugify variant. -/
def slugCharsAscii : List Char :=
  ['a', 'b', 'c', 'd', 'e', 'f', 'g', 'h', 'i', 'j', 'k', 'l', 'm',
   'n', 'o', 'p', 'q', 'r', 's', 't', 'u', 'v', 'w', 'x', 'y', 'z',
   '0', '1', '2', '3', '4', '5', '6', '7', '8', '9']

/-- Membership in the localized character class. -/
def isSlugChar (c : Char) : Bool := decide (c ∈ slugChars)

/-- Membership in the ASCII-only character class. -/
def isSlugCharAscii (c : Char) : Bool := decide (c ∈ slugCharsAscii)

/-- Replace every character outside the class by a hyphen. -/
def hyphenate (allowed : Char → Bool) (l : List Char) : List Char :=
  l.map (fun c => if allowed c then c else '-')

/-- Collapse every maximal run of hyphens to a single hyphen. -/
def collapseHyphens : List Char → List Char
  | [] => []
  | [c] => [c]
  | c :: d :: rest =>
    if c == '-' && d == '-' then collapseHyphens (d :: rest)
    else c :: collapseHyphens (d :: rest)

/-- Model of Python `str.strip('-')`: remove hyphens from both ends. -/
def stripHyphens (l : List Char) : List Char :=
  ((l.dropWhile (· == '-')).reverse.dropWhile (· == '-')).reverse

/-- Slugification pipeline over a character list, parametrized by the
character class of the regex. -/
def slugifyCore (allowed : Char → Bool) (l : List Char) : List Char :=
  stripHyphens (collapseHyphens (hyphenate allowed (l.map pyLower)))

/-- Localized slugify of generate_scripts.py (class `[a-z0-9äö]`). -/
def slugify (t : String) : String := ⟨slugifyCore isSlugChar t.data⟩

/-- ASCII-only slugify of generate_conversations.py (class `[a-z0-9]`). -/
def slugifyAscii (t : String) : String := ⟨slugifyCore isSlugCharAscii t.data⟩

/-! ### Podcast allow-list (generate_ideas_json.py, lines 109-122 and 217-242) -/

/-- Entry of `ALLOWED_PODCAST_CHARACTERS`. -/
structure PodVoice where
  name : String
  gender : String
  age : String
  voice_id : String
deriving DecidableEq, Repr, Inhabited

/-- The fixed podcast allow-list. -/
def ALLOWED_PODCAST_CHARACTERS : List PodVoice := [
  ⟨"Aurora", "female", "young adult", "YSabzCJMvEHDduIDMdwV"⟩,
  ⟨"Jussi", "male", "young adult", "dlbXHgJnwobU5JdZ8F5M"⟩]

/-- Lookup in the dictionary `{v["name"].lower(): v["voice_id"]}` built by
`assign_podcast_voice_ids`; Python dict construction lets later entries
override earlier ones, modelled by searching the reversed list. -/
def voiceMapLookup (key : String) : Option String :=
  (ALLOWED_PODCAST_CHARACTERS.reverse.find? (fun v => sLower v.name == key)).map
    (fun v => v.voice_id)

/-- Fallback pick `random.choice(ALLOWED_PODCAST_CHARACTERS)["voice_id"]`,
with the random draw modelled as a seed modulo the list length. -/
def podFallback (r : Nat) : String :=
  (ALLOWED_PODCAST_CHARACTERS.getD (r % ALLOWED_PODCAST_CHARACTERS.length) default).voice_id

/-- Voice assignment for one podcast character (generate_ideas_json.py
lines 225-240): look the lowered character name up in the allow-list map;
assign on a hit (Python `if voice_id:`, so a falsy empty id would also
fall through), otherwise warn and pick a random allow-list entry. -/
def assignPodcastVoice (r : Nat) (c : IdeaChar) : String :=
  let char_name := sLower (c.name.getD "")
  match voiceMapLookup char_name with
  | some vid => if vid = "" then podFallback r else vid
  | none => podFallback r

/-- Model of `assign_podcast_voice_ids`: assign every character of every
idea from the allow-list, `rnd` supplying the random draws. -/
def assign_podcast_voice_ids (rnd : Nat → Nat) (ideas : List (List IdeaChar)) :
    List (List String) :=
  ideas.map (fun chars => chars.mapIdx (fun i c => assignPodcastVoice (rnd i) c))

/-- Podcast character whose name matches an allow-list entry only up to
case. -/
def podCharW : IdeaChar := ⟨some "AURORA", some "Host", some "female", some "young adult", none⟩

/-! ### Asset matcher (generate_videos.py, lines 24-26) -/

/-- Directory entry as seen by `Path.iterdir()`: a stem, a suffix and an
is_file flag. -/
structure DirFile where
  stem : String
  suffix : String
  is_file : Bool
deriving DecidableEq, Repr

/-- Key set of `illustration_files = {f.stem: f for f in ... if f.is_file()}`
(the dict deduplicates stems; `set(keys)` is the Finset of stems). -/
def illustrationStems (files : List DirFile) : Finset String :=
  ((files.filter (fun f => f.is_file)).map DirFile.stem).toFinset

/-- Key set of `mp3_files = {f.stem: f for f in ... if f.is_file() and
f.suffix.lower() == ".mp3"}`. -/
def mp3Stems (files : List DirFile) : Finset String :=
  ((files.filter (fun f => f.is_file && sLower f.suffix == ".mp3")).map DirFile.stem).toFinset

/-- Model of `common_names = set(illustration_files.keys()) & set(mp3_files.keys())`. -/
def common_names (illustrationDir mp3Dir : List DirFile) : Finset String :=
  illustrationStems illustrationDir ∩ mp3Stems mp3Dir

/-- Directory with stems a, b, c. -/
def exampleDirA : List DirFile :=
  [⟨"a", ".png", true⟩, ⟨"b", ".png", true⟩, ⟨"c", ".png", true⟩]

/-- Directory with stems b, c, d. -/
def exampleDirB : List DirFile :=
  [⟨"b", ".mp3", true⟩, ⟨"c", ".mp3", true⟩, ⟨"d", ".mp3", true⟩]

/-! ### JSON values, script-generation stage (generate_scripts.py) and
TTS loader (tts_generator.py) -/

/-- Minimal JSON value model: enough structure to express the persisted
script objects and Python truthiness. -/
inductive JVal where
  | s (v : String)
  | arr (l : List JVal)
  | obj (fields : List (String × JVal))
  | jnull

/-- Python truthiness of a JSON value. -/
def jTruthy : JVal → Bool
  | .s v => v != ""
  | .arr l => !l.isEmpty
  | .obj f => !f.isEmpty
  | .jnull => false

/-- Object returned by `generate_conversation`, viewed through the two
keys the pipeline reads afterwards: `dialogue_list` (read by
`save_scripts` with a `[]` default) and `error` (set on the failure
paths, absent from a normally parsed response unless the model emitted
one). -/
structure ConvResult where
  dialogue_list : Option (List JVal)
  error : Option String

/-- Outcome of the generation collaborator call inside
`generate_conversation`: an `APIError` raised by the client, a response
whose text is not valid JSON (`json.JSONDecodeError`), or a parsed JSON
object. -/
inductive GenOutcome where
  | apiError (msg : String)
  | badJson (raw : String)
  | parsed (r : ConvResult)

/-- Python exceptions that can escape the stage loop. -/
inductive PyErr where
  | valueError (msg : String)
  | keyError (key : String)
deriving DecidableEq, Repr

/-- Idea dict as read by the script-generation stage; a `none` field
models a missing key. -/
structure IdeaJ where
  title : Option String
  description : Option String
  characters : Option (List IdeaChar)
deriving DecidableEq, Repr

/-- Serialization of an optional dict entry: a missing key contributes no
field. -/
def optField (k : String) (v : Option String) : List (String × JVal) :=
  match v with
  | some s => [(k, .s s)]
  | none => []

/-- JSON form of a character dict. -/
def ideaCharToJVal (c : IdeaChar) : JVal :=
  .obj (optField "name" c.name ++ optField "role" c.role ++
    optField "gender" c.gender ++ optField "age" c.age ++
    optField "default_tone" c.default_tone)

/-- JSON form of an idea dict. -/
def ideaToJVal (i : IdeaJ) : JVal :=
  .obj (optField "title" i.title ++ optField "description" i.description ++
    (match i.characters with
     | some cs => [("characters", JVal.arr (cs.map ideaCharToJVal))]
     | none => []))

/-- Model of `generate_conversation` (generate_scripts.py lines 33-129).
The collaborator call and JSON parse are a parameter (`outcome`); before
them the source raises `ValueError` on a falsy characters list, and
`KeyError` when a character lacks `name` (char_map comprehension) or the
idea lacks `title`/`description` (prompt construction).  An `APIError`
and a JSON decode error are caught and folded into the returned dict as
an `error` field next to an empty `dialogue_list`. -/
def generate_conversation (idea : IdeaJ) (outcome : GenOutcome) : Except PyErr ConvResult :=
  if (idea.characters.getD []).isEmpty then
    .error (.valueError "Idea must contain a 'characters' list with 'name' and 'voice_id'.")
  else
    match (idea.characters.getD []).find? (fun c => c.name.isNone) with
    | some _ => .error (.keyError "name")
    | none =>
      match idea.title, idea.description with
      | none, _ => .error (.keyError "title")
      | some _, none => .error (.keyError "description")
      | some _, some _ =>
        match outcome with
        | .apiError e => .ok ⟨some [], some ("API Error: " ++ e)⟩
        | .badJson raw => .ok ⟨some [], some raw⟩
        | .parsed r => .ok r

/-- Model of `save_scripts` (generate_scripts.py lines 222-251): pick the
folder by script_type (raising `ValueError` otherwise), build the path
from the slug, and persist an object with exactly the keys `metadata`,
`idea` and `dialogue_list` (the latter defaulting to `[]`). -/
def save_scripts (title : String) (script_type : String) (idea metadata : JVal)
    (conversation_data : ConvResult) : Except PyErr (String × List (String × JVal)) :=
  if script_type = "podcast" then
    .ok ("podcast_scripts" ++ "/" ++ slugify title ++ ".json",
      [("metadata", metadata), ("idea", idea),
       ("dialogue_list", JVal.arr (conversation_data.dialogue_list.getD []))])
  else if script_type = "conversation" then
    .ok ("scripts" ++ "/" ++ slugify title ++ ".json",
      [("metadata", metadata), ("idea", idea),
       ("dialogue_list", JVal.arr (conversation_data.dialogue_list.getD []))])
  else .error (.valueError "Invalid script_type provided.")

/-- Loop body of `process_ideas_file` (generate_scripts.py lines
270-277): per idea the log line reads `idea['title']` (KeyError when
missing), then the generator runs, then `save_scripts` persists; no
exception is caught here, so an `Except.error` aborts the whole stage. -/
def process_ideas_loop (outcomes : Nat → GenOutcome) (metadata : JVal) (script_type : String) :
    Nat → List IdeaJ → Except PyErr (List (String × List (String × JVal)))
  | _, [] => .ok []
  | n, idea :: rest =>
    match idea.title with
    | none => .error (.keyError "title")
    | some t =>
      match generate_conversation idea (outcomes n) with
      | .error e => .error e
      | .ok conv =>
        match save_scripts t script_type (ideaToJVal idea) metadata conv with
        | .error e => .error e
        | .ok pf =>
          match process_ideas_loop outcomes metadata script_type (n + 1) rest with
          | .error e => .error e
          | .ok rest2 => .ok (pf :: rest2)

/-- Model of `process_ideas_file` restricted to the conversation
generator path (the podcast path differs only in prompts). -/
def process_ideas_file (outcomes : Nat → GenOutcome) (metadata : JVal)
    (script_type : String) (ideas : List IdeaJ) :
    Except PyErr (List (String × List (String × JVal))) :=
  process_ideas_loop outcomes metadata script_type 0 ideas

/-- Model of `load_dialogue_data` (tts_generator.py lines 13-27).  The
argument models the file read: `none` is a missing file
(FileNotFoundError), `some none` an unparseable one (JSONDecodeError),
`some (some data)` a parsed object.  All three named exceptions (also
the `ValueError` raised on a falsy `dialogue_list`) are caught, logged
and turned into the skip marker `None`. -/
def load_dialogue_data (file : Option (Option (List (String × JVal)))) : Option JVal :=
  match file with
  | none => none
  | some none => none
  | some (some data) =>
    match data.lookup "dialogue_list" with
    | none => none
    | some dl => if jTruthy dl then some dl else none

/-- Per-file step of `process_scripts_directory` (tts_generator.py lines
70-78): `generate_and_save_audio` is invoked (result `some dl`) only when
the loaded dialogue list is truthy; `none` means the file is skipped, no
TTS call made, no audio written. -/
def process_script (file : Option (Option (List (String × JVal)))) : Option JVal :=
  match load_dialogue_data file with
  | some dl => if jTruthy dl then some dl else none
  | none => none

/-- Valid two-character idea. -/
def ideaGoodW : IdeaJ :=
  ⟨some "Kahvilassa", some "Coffee shop chat", some [charMaleAdult, charFemaleAdult]⟩

/-- Idea whose characters list is present but empty. -/
def ideaNoCharsW : IdeaJ := ⟨some "Tyhjä", some "No characters", some []⟩

/-- Metadata object of a conversation batch. -/
def metaW : JVal :=
  .obj [("language", .s "Finnish"), ("tone", .s "friendly"), ("length", .s "1-2 minutes")]

/-- Outcome stream where every generation succeeds with one dialogue
line. -/
def outcomesOkW : Nat → GenOutcome :=
  fun _ => .parsed ⟨some [.obj [("text", .s "[calm] Hei!"),
    ("voice_id", .s "1SM7GgM6IMuvQlz2BwM3")]], none⟩

/-! ### Video post-production pipeline (generate_subtitled_videos.py)

The collaborators `generate_subtitles`, `cleanup_temp_file`
(subtitle_generator module) and `add_background_music` (audio_mixer
module) are repository code not present under the sources at hand; their
filesystem effects are modelled from the spec (sections 4.5 and 6).  The
filesystem is a finite set of paths; every path the pipeline touches
derives deterministically from the source video name, so paths are
modelled by one constructor per template. -/

instance {ε α : Type} [DecidableEq ε] [DecidableEq α] : DecidableEq (Except ε α) :=
  fun a b =>
    match a, b with
    | .ok x, .ok y => decidable_of_iff (x = y) (by simp)
    | .error x, .error y => decidable_of_iff (x = y) (by simp)
    | .ok _, .error _ => isFalse (by simp)
    | .error _, .ok _ => isFalse (by simp)

/-- Video item: source file name split into stem and extension. -/
structure VideoFile where
  stem : String
  ext : String
deriving DecidableEq, Repr

/-- Paths touched by the pipeline, one constructor per template:
`output_videos/<stem><ext>` (source), `temp_processing/subtitled_<stem><ext>`
(temp), `final_subtitled_videos/<stem><ext>` (final),
`output_videos/<stem>.ass` (sidecar next to the source),
`subtitles/<stem>.ass` (moved sidecar). -/
inductive FPath where
  | source (v : VideoFile)
  | temp (v : VideoFile)
  | final (v : VideoFile)
  | assSource (stem : String)
  | assTarget (stem : String)
deriving DecidableEq, Repr

/-- Effect of one `generate_subtitles` call: whether it produces the temp
subtitled video and whether it produces the sidecar .ass file. -/
structure SubtitleBeh where
  producesTemp : Bool
  producesAss : Bool
deriving DecidableEq, Repr

/-- Effect of one `add_background_music` call: whether it raises (the
spec says it catches its own failures, but the raising behaviour is
modelled too, to settle the claim about raising) and whether it produces
the final output file. -/
structure MixBeh where
  raises : Bool
  producesFinal : Bool
deriving DecidableEq, Repr

/-- The two external collaborators, as per-item behaviours. -/
structure Collab where
  sub : VideoFile → SubtitleBeh
  mix : VideoFile → MixBeh

/-- Modelled from the spec: the subtitle burn-in collaborator
(`subtitle_generator.generate_subtitles`, not under the given sources)
writes the subtitled video to the temp output path and a sidecar .ass
file next to the source; it may fail to produce the temp output. -/
def generate_subtitles (beh : SubtitleBeh) (v : VideoFile) (fs : Finset FPath) :
    Finset FPath :=
  if beh.producesAss then
    insert (FPath.assSource v.stem)
      (if beh.producesTemp then insert (FPath.temp v) fs else fs)
  else if beh.producesTemp then insert (FPath.temp v) fs else fs

/-- Modelled from the spec: `subtitle_generator.cleanup_temp_file`
deletes the given temporary file. -/
def cleanup_temp_file (p : FPath) (fs : Finset FPath) : Finset FPath := fs.erase p

/-- Modelled from the spec: the audio-mixing collaborator
(`audio_mixer.add_background_music`, not under the given sources) mixes
background music into the final output path; on its documented behaviour
it catches failures internally (then the final file may simply be
absent); `Except.error` models the additional case that it raises. -/
def add_background_music (beh : MixBeh) (v : VideoFile) (fs : Finset FPath) :
    Except (Finset FPath) (Finset FPath) :=
  if beh.raises then .error fs
  else .ok (if beh.producesFinal then insert (FPath.final v) fs else fs)

/-- Step 3 of the loop: move the sidecar .ass file from the source
directory into the subtitles directory when it exists. -/
def moveAss (v : VideoFile) (fs : Finset FPath) : Finset FPath :=
  if FPath.assSource v.stem ∈ fs then
    insert (FPath.assTarget v.stem) (fs.erase (FPath.assSource v.stem))
  else fs

/-- One iteration of the loop of `batch_process_videos`
(generate_subtitled_videos.py lines 52-106): subtitle, check the
postcondition (`continue` when the temp file is missing), mix (the
redundant inner `if temp.exists()` re-check is true on this branch),
move the sidecar, delete the temp file, log.  `Except.error` is an
uncaught exception escaping the loop with the filesystem as it was. -/
def process_one (col : Collab) (v : VideoFile) (fs : Finset FPath) :
    Except (Finset FPath) (Finset FPath) :=
  if FPath.temp v ∉ generate_subtitles (col.sub v) v fs then
    .ok (generate_subtitles (col.sub v) v fs)
  else
    match add_background_music (col.mix v) v (generate_subtitles (col.sub v) v fs) with
    | .error fsE => .error fsE
    | .ok fs2 => .ok (cleanup_temp_file (FPath.temp v) (moveAss v fs2))

/-- The per-video loop. -/
def batch_loop (col : Collab) :
    List VideoFile → Finset FPath → Except (Finset FPath) (Finset FPath)
  | [], fs => .ok fs
  | v :: rest, fs =>
    match process_one col v fs with
    | .error fsE => .error fsE
    | .ok fs2 => batch_loop col rest fs2

/-- Is the path inside the temp_processing directory? -/
def isTempFile : FPath → Bool
  | .temp _ => true
  | _ => false

/-- Model of `shutil.rmtree(TEMP_DIR)`: remove everything inside the
temp_processing directory (the directory exists, `setup_directories`
created it). -/
def rmtreeTemp (fs : Finset FPath) : Finset FPath :=
  fs.filter (fun p => isTempFile p = false)

/-- Model of `batch_process_videos` (generate_subtitled_videos.py lines
30-119): the loop, then deletion of the temp directory. -/
def batch_process_videos (col : Collab) (videos : List VideoFile) (fs : Finset FPath) :
    Except (Finset FPath) (Finset FPath) :=
  match batch_loop col videos fs with
  | .error fsE => .error fsE
  | .ok fs2 => .ok (rmtreeTemp fs2)

/-- Paths that processing the item `w` can create. -/
def itemPath (w : VideoFile) (p : FPath) : Prop :=
  p = FPath.temp w ∨ p = FPath.final w ∨
    p = FPath.assSource w.stem ∨ p = FPath.assTarget w.stem

/-- The video `cafe.mp4`. -/
def cafeVideo : VideoFile := ⟨"cafe", ".mp4"⟩

/-- The video `tram.mp4`. -/
def tramVideo : VideoFile := ⟨"tram", ".mp4"⟩

/-- Collaborators whose subtitler fails to produce the temp output for
`cafe.mp4` only; mixing never raises and always produces the final
file. -/
def colAbortW : Collab :=
  ⟨fun w => ⟨decide (w ≠ cafeVideo), true⟩, fun _ => ⟨false, true⟩⟩

/-- Collaborators whose subtitler succeeds and whose mixer raises. -/
def colRaiseW : Collab := ⟨fun _ => ⟨true, true⟩, fun _ => ⟨true, false⟩⟩

/-- Collaborators whose subtitler succeeds and whose mixer returns
normally, producing the final file. -/
def colOkW : Collab := ⟨fun _ => ⟨true, true⟩, fun _ => ⟨false, true⟩⟩

/-- Final state of the two-video abort scenario: the aborted `cafe.mp4`
left only its unmoved sidecar, `tram.mp4` went through. -/
def fsEndW : Finset FPath :=
  {FPath.assSource "cafe", FPath.final tramVideo, FPath.assTarget "tram"}

/-- State after processing one video with a returning mixer: moved
sidecar and final output, no temp file. -/
def fsAfterW : Finset FPath := {FPath.assTarget "cafe", FPath.final cafeVideo}

end Kielo

namespace Kielo

/-! ### Solver lemmas -/

theorem getD_mod_mem {α : Type} (l : List α) (d : α) (r : Nat) (h : l ≠ []) :
    l.getD (r % l.length) d ∈ l := by
  have hlt : r % l.length < l.length := Nat.mod_lt _ (List.length_pos.mpr h)
  simp only [List.getD_eq_getElem?_getD, List.getElem?_eq_getElem hlt, Option.getD_some]
  exact List.getElem_mem hlt

theorem VOICES_ne_nil : VOICES ≠ [] := by decide

theorem matchingTier_eq (c : IdeaChar) :
    matchingTier c =
      if sLower (c.age.getD "") ≠ "" ∧ (tierGA c).isEmpty = false then tierGA c
      else if (tierG c).isEmpty = false then tierG c
      else VOICES := by
  simp only [matchingTier]
  by_cases ha : sLower (c.age.getD "") ≠ ""
  · rw [if_pos ha]
    cases h1 : (tierGA c).isEmpty
    · simp [h1, ha]
    · cases h2 : (tierG c).isEmpty <;> simp [h1, h2, ha]
  · rw [if_neg ha]
    cases h2 : (tierG c).isEmpty <;> simp [h2, ha]

theorem availableList_eq (c : IdeaChar) (used : Finset String) :
    availableList c used =
      if (tierMinusUsed c used).isEmpty = false then tierMinusUsed c used
      else if (poolMinusUsed used).isEmpty = false then poolMinusUsed used
      else VOICES := by
  simp only [availableList]
  cases hA : (tierMinusUsed c used).isEmpty <;>
    cases hB : (poolMinusUsed used).isEmpty <;> simp [hA, hB]

theorem matchingTier_subset (c : IdeaChar) : ∀ v ∈ matchingTier c, v ∈ VOICES := by
  intro v hv
  rw [matchingTier_eq] at hv
  split at hv
  · exact (List.mem_filter.mp hv).1
  · split at hv
    · exact (List.mem_filter.mp hv).1
    · exact hv

theorem availableList_ne_nil (c : IdeaChar) (used : Finset String) :
    availableList c used ≠ [] := by
  rw [availableList_eq]
  split
  · next h => simpa [List.isEmpty_iff] using h
  · split
    · next h => simpa [List.isEmpty_iff] using h
    · exact VOICES_ne_nil

theorem pickVoice_mem (r : Nat) (c : IdeaChar) (used : Finset String) :
    pickVoice r c used ∈ availableList c used :=
  getD_mod_mem _ _ _ (availableList_ne_nil c used)

theorem pickVoice_not_used (r : Nat) (c : IdeaChar) (used : Finset String)
    (h : ∃ v ∈ VOICES, v.voice_id ∉ used) :
    (pickVoice r c used).voice_id ∉ used := by
  obtain ⟨w, hw, hwid⟩ := h
  have hB : (poolMinusUsed used).isEmpty = false := by
    have hwB : w ∈ poolMinusUsed used :=
      List.mem_filter.mpr ⟨hw, by simpa using hwid⟩
    cases hpe : (poolMinusUsed used).isEmpty
    · rfl
    · rw [List.isEmpty_iff] at hpe
      rw [hpe] at hwB
      simp at hwB
  have hmem := pickVoice_mem r c used
  rw [availableList_eq] at hmem
  by_cases hA : (tierMinusUsed c used).isEmpty = false
  · rw [if_pos hA] at hmem
    simp only [tierMinusUsed, List.mem_filter, decide_eq_true_eq] at hmem
    exact hmem.2
  · rw [if_neg hA, if_pos hB] at hmem
    simp only [poolMinusUsed, List.mem_filter, decide_eq_true_eq] at hmem
    exact hmem.2

theorem exists_unused (used : Finset String) (h : used.card < poolIds.card) :
    ∃ v ∈ VOICES, v.voice_id ∉ used := by
  by_contra hcon
  push_neg at hcon
  have hsub : poolIds ⊆ used := by
    intro x hx
    simp only [poolIds, List.mem_toFinset, List.mem_map] at hx
    obtain ⟨v, hv, rfl⟩ := hx
    exact hcon v hv
  exact absurd (Finset.card_le_card hsub) (by omega)

theorem assignIdea_aux (rnd : Nat → Nat) (chars : List IdeaChar) :
    ∀ (n : Nat) (used : Finset String),
      chars.length + used.card ≤ poolIds.card →
      (assignIdea rnd n chars used).Nodup ∧
        ∀ x ∈ assignIdea rnd n chars used, x ∉ used := by
  induction chars with
  | nil => intro n used _; simp [assignIdea]
  | cons c rest ih =>
    intro n used h
    have hlen : rest.length + used.card + 1 ≤ poolIds.card := by
      simpa [List.length_cons, Nat.add_right_comm] using h
    have hcard : used.card < poolIds.card := by omega
    have hnot := pickVoice_not_used (rnd n) c used (exists_unused used hcard)
    have hrest := ih (n + 1) (insert (pickVoice (rnd n) c used).voice_id used)
      (by
        have := Finset.card_insert_le (pickVoice (rnd n) c used).voice_id used
        omega)
    have hunfold : assignIdea rnd n (c :: rest) used =
        (pickVoice (rnd n) c used).voice_id ::
          assignIdea rnd (n + 1) rest (insert (pickVoice (rnd n) c used).voice_id used) := rfl
    rw [hunfold]
    refine ⟨List.nodup_cons.mpr ⟨fun hmem => ?_, hrest.1⟩, ?_⟩
    · exact hrest.2 _ hmem (Finset.mem_insert_self _ _)
    · intro x hx
      rcases List.mem_cons.mp hx with rfl | hx2
      · exact hnot
      · exact fun hxu => hrest.2 x hx2 (Finset.mem_insert_of_mem hxu)

/-! ### Claim theorems for the voice-assignment solver -/

/-- C1 (amended): for every character processed by the solver, the
candidate set is computed by three-tier relaxation (gender+age when the
character has a non-empty age, then gender only, then the entire pool);
the used voice_ids are then removed, and if that removal empties the set
the solver falls back to the full pool *minus the used voice_ids*; only
when every pool voice_id is already used does it pick from the
unfiltered, duplicate-permitting pool.  The random pick ranges exactly
over the remaining candidate list. -/
theorem assign_voice_ids_candidate_structure (c : IdeaChar) (used : Finset String) (r : Nat) :
    matchingTier c =
      (if sLower (c.age.getD "") ≠ "" ∧ (tierGA c).isEmpty = false then tierGA c
       else if (tierG c).isEmpty = false then tierG c
       else VOICES) ∧
    availableList c used =
      (if (tierMinusUsed c used).isEmpty = false then tierMinusUsed c used
       else if (poolMinusUsed used).isEmpty = false then poolMinusUsed used
       else VOICES) ∧
    pickVoice r c used ∈ availableList c used ∧
    (∀ v ∈ availableList c used, ∃ r2, pickVoice r2 c used = v) := by
  refine ⟨matchingTier_eq c, availableList_eq c used, pickVoice_mem r c used, ?_⟩
  intro v hv
  obtain ⟨i, hi, hget⟩ := List.getElem_of_mem hv
  refine ⟨i, ?_⟩
  show (availableList c used).getD (i % (availableList c used).length) dummyVoice = v
  rw [Nat.mod_eq_of_lt hi]
  simp only [List.getD_eq_getElem?_getD, List.getElem?_eq_getElem hi, Option.getD_some]
  exact hget

/-- C1 witness: with a female, adult character and the shared Mark/Hope
voice_id already used, the tier candidates are exhausted, the candidate
set is the pool minus the used id, and the voice "Aurora Voice" (a member
of that candidate set) is reachable by some random draw. -/
theorem assign_voice_ids_candidate_structure_witness :
    (tierMinusUsed charFemaleAdult usedMarkId).isEmpty = true ∧
    availableList charFemaleAdult usedMarkId = poolMinusUsed usedMarkId ∧
    ∃ r2, pickVoice r2 charFemaleAdult usedMarkId = VOICES.headI := by
  have h := assign_voice_ids_candidate_structure charFemaleAdult usedMarkId 0
  refine ⟨by decide, ?_, ?_⟩
  · rw [h.2.1]
    decide
  · exact h.2.2.2 VOICES.headI (by decide)

/-- C1 counterexample: for the female, adult character with the shared
Mark/Hope voice_id already used in the idea, removing used ids empties
the tier candidate set, yet the solver's fallback candidate list is not
the unfiltered pool (as the claim states, formalised by
`availableListClaimC1`): the used voice_id can never be picked.  The
used-set arises in a real run: assigning the male-adult character first
always picks "Mark - ConvoAI". -/
theorem assign_voice_ids_fallback_counterexample :
    ((matchingTier charFemaleAdult).filter
      (fun v => decide (v.voice_id ∉ usedMarkId))).isEmpty = true ∧
    availableList charFemaleAdult usedMarkId ≠ availableListClaimC1 charFemaleAdult usedMarkId ∧
    availableListClaimC1 charFemaleAdult usedMarkId = VOICES ∧
    "1SM7GgM6IMuvQlz2BwM3" ∉ (availableList charFemaleAdult usedMarkId).map Voice.voice_id ∧
    "1SM7GgM6IMuvQlz2BwM3" ∈ (availableListClaimC1 charFemaleAdult usedMarkId).map Voice.voice_id ∧
    assignIdea (fun _ => 0) 0 [charMaleAdult, charFemaleAdult] ∅ =
      ["1SM7GgM6IMuvQlz2BwM3", "YSabzCJMvEHDduIDMdwV"] := by
  decide

/-- C2 (amended): within one idea, if the number of characters is at most
the number of *distinct* voice_ids in the pool (9, since the entries
"Mark - ConvoAI" and "Hope - Smooth talker" share one voice_id), then
for every random outcome the assigned voice_ids are pairwise distinct. -/
theorem assign_voice_ids_distinct (rnd : Nat → Nat) (chars : List IdeaChar)
    (h : chars.length ≤ poolIds.card) :
    (assignIdea rnd 0 chars ∅).Nodup :=
  (assignIdea_aux rnd chars 0 ∅ (by simpa using h)).1

/-- C2 witness: a two-character idea gets two distinct voice_ids. -/
theorem assign_voice_ids_distinct_witness :
    (assignIdea (fun _ => 0) 0 [charMaleAdult, charFemaleAdult] ∅).Nodup :=
  assign_voice_ids_distinct (fun _ => 0) [charMaleAdult, charFemaleAdult] (by decide)

/-! ### Slugify lemmas -/

theorem dropWhile_head_false {α : Type} {p : α → Bool} :
    ∀ (l : List α) (x : α), (l.dropWhile p).head? = some x → p x = false := by
  intro l
  induction l with
  | nil => intro x h; simp at h
  | cons c t ih =>
    intro x h
    by_cases hc : p c
    · rw [List.dropWhile_cons_of_pos hc] at h
      exact ih x h
    · rw [List.dropWhile_cons_of_neg hc] at h
      simp only [List.head?_cons, Option.some.injEq] at h
      subst h
      simpa using hc

theorem dropWhile_mem {α : Type} {p : α → Bool} :
    ∀ (l : List α) (x : α), x ∈ l.dropWhile p → x ∈ l := by
  intro l
  induction l with
  | nil => intro x h; simp at h
  | cons c t ih =>
    intro x h
    by_cases hc : p c
    · rw [List.dropWhile_cons_of_pos hc] at h
      exact List.mem_cons_of_mem c (ih x h)
    · rwa [List.dropWhile_cons_of_neg hc] at h

theorem dropWhile_eq_self_of_head {α : Type} {p : α → Bool} (l : List α)
    (h : ∀ x, l.head? = some x → p x = false) : l.dropWhile p = l := by
  cases l with
  | nil => rfl
  | cons c t => exact List.dropWhile_cons_of_neg (by simp [h c rfl])

theorem collapse_head (d : Char) (t : List Char) :
    ∃ t2, collapseHyphens (d :: t) = d :: t2 := by
  induction t generalizing d with
  | nil => exact ⟨[], rfl⟩
  | cons e t1 ih =>
    by_cases h : (d == '-' && e == '-') = true
    · obtain ⟨t2, ht2⟩ := ih e
      have hde : d = e := by
        rw [Bool.and_eq_true] at h
        rw [eq_of_beq h.1, eq_of_beq h.2]
      rw [show collapseHyphens (d :: e :: t1) = collapseHyphens (e :: t1) from by
        simp [collapseHyphens, h]]
      exact ⟨t2, by rw [ht2, hde]⟩
    · exact ⟨collapseHyphens (e :: t1), by simp [collapseHyphens, h]⟩

theorem collapse_mem :
    ∀ (l : List Char) (x : Char), x ∈ collapseHyphens l → x ∈ l := by
  intro l
  induction l with
  | nil => intro x h; simp [collapseHyphens] at h
  | cons c t ih =>
    cases t with
    | nil => intro x h; simpa [collapseHyphens] using h
    | cons d rest =>
      intro x hx
      by_cases h : (c == '-' && d == '-') = true
      · rw [show collapseHyphens (c :: d :: rest) = collapseHyphens (d :: rest) from by
          simp [collapseHyphens, h]] at hx
        exact List.mem_cons_of_mem c (ih x hx)
      · rw [show collapseHyphens (c :: d :: rest) = c :: collapseHyphens (d :: rest) from by
          simp [collapseHyphens, h]] at hx
        rcases List.mem_cons.mp hx with rfl | hx2
        · exact List.mem_cons_self _ _
        · exact List.mem_cons_of_mem c (ih x hx2)

theorem collapse_chain (l : List Char) :
    List.Chain' (fun a b => ¬(a = '-' ∧ b = '-')) (collapseHyphens l) := by
  induction l with
  | nil => simp [collapseHyphens]
  | cons c t ih =>
    cases t with
    | nil => simp [collapseHyphens]
    | cons d rest =>
      by_cases h : (c == '-' && d == '-') = true
      · rw [show collapseHyphens (c :: d :: rest) = collapseHyphens (d :: rest) from by
          simp [collapseHyphens, h]]
        exact ih
      · rw [show collapseHyphens (c :: d :: rest) = c :: collapseHyphens (d :: rest) from by
          simp [collapseHyphens, h]]
        obtain ⟨t2, ht2⟩ := collapse_head d rest
        rw [ht2]
        refine List.chain'_cons.mpr ⟨?_, ht2 ▸ ih⟩
        intro hcd
        exact h (by simp [hcd.1, hcd.2])

theorem collapse_id :
    ∀ (l : List Char), List.Chain' (fun a b => ¬(a = '-' ∧ b = '-')) l →
      collapseHyphens l = l := by
  intro l
  induction l with
  | nil => intro _; rfl
  | cons c t ih =>
    intro h
    cases t with
    | nil => rfl
    | cons d rest =>
      have hcd := (List.chain'_cons.mp h).1
      have htail := (List.chain'_cons.mp h).2
      have hcond : (c == '-' && d == '-') = false := by
        cases hb : (c == '-' && d == '-')
        · rfl
        · rw [Bool.and_eq_true] at hb
          exact absurd ⟨eq_of_beq hb.1, eq_of_beq hb.2⟩ hcd
      rw [show collapseHyphens (c :: d :: rest) = c :: collapseHyphens (d :: rest) from by
        simp [collapseHyphens, hcond]]
      rw [ih htail]

theorem hyphenate_mem (allowed : Char → Bool) (l : List Char) :
    ∀ x ∈ hyphenate allowed l, allowed x = true ∨ x = '-' := by
  intro x hx
  simp only [hyphenate, List.mem_map] at hx
  obtain ⟨c, _, rfl⟩ := hx
  by_cases hc : allowed c = true
  · left
    simp only [if_pos hc]
    exact hc
  · right; simp [hc]

theorem map_id_of_mem {α : Type} (f : α → α) :
    ∀ (l : List α), (∀ x ∈ l, f x = x) → l.map f = l := by
  intro l
  induction l with
  | nil => intro _; rfl
  | cons c t ih =>
    intro h
    simp only [List.map_cons]
    rw [h c (List.mem_cons_self _ _), ih fun x hx => h x (List.mem_cons_of_mem c hx)]

theorem stripHyphens_mem (l : List Char) : ∀ x ∈ stripHyphens l, x ∈ l := by
  intro x hx
  unfold stripHyphens at hx
  rw [List.mem_reverse] at hx
  have hx2 := dropWhile_mem _ x hx
  rw [List.mem_reverse] at hx2
  exact dropWhile_mem _ x hx2

theorem stripHyphens_last (l : List Char) : (stripHyphens l).getLast? ≠ some '-' := by
  intro hcon
  unfold stripHyphens at hcon
  rw [List.getLast?_reverse] at hcon
  have := dropWhile_head_false _ _ hcon
  simp at this

theorem stripHyphens_head (l : List Char) : (stripHyphens l).head? ≠ some '-' := by
  intro hcon
  unfold stripHyphens at hcon
  rw [List.head?_reverse] at hcon
  have hne : (l.dropWhile (· == '-')).reverse.dropWhile (· == '-') ≠ [] := by
    intro hnil
    rw [hnil] at hcon
    simp at hcon
  obtain ⟨pre, hpre⟩ :=
    List.dropWhile_suffix (l := (l.dropWhile (· == '-')).reverse) (· == '-')
  have hlast : ((l.dropWhile (· == '-')).reverse).getLast? = some '-' := by
    rw [← hpre, List.getLast?_append_of_ne_nil _ hne]
    exact hcon
  rw [List.getLast?_reverse] at hlast
  have := dropWhile_head_false _ _ hlast
  simp at this

theorem stripHyphens_chain (l : List Char)
    (h : List.Chain' (fun a b => ¬(a = '-' ∧ b = '-')) l) :
    List.Chain' (fun a b => ¬(a = '-' ∧ b = '-')) (stripHyphens l) := by
  have hflip : ∀ (m : List Char), List.Chain' (fun a b => ¬(a = '-' ∧ b = '-')) m →
      List.Chain' (flip (fun a b : Char => ¬(a = '-' ∧ b = '-'))) m := by
    intro m hm
    exact hm.imp fun a b hab hba => hab ⟨hba.2, hba.1⟩
  have h1 := h.suffix (List.dropWhile_suffix (l := l) (· == '-'))
  have h2 := List.chain'_reverse.mpr (hflip _ h1)
  have h3 := h2.suffix
    (List.dropWhile_suffix (l := (l.dropWhile (· == '-')).reverse) (· == '-'))
  exact List.chain'_reverse.mpr (hflip _ h3)

theorem stripHyphens_id (l : List Char)
    (hh : l.head? ≠ some '-') (hl : l.getLast? ≠ some '-') : stripHyphens l = l := by
  unfold stripHyphens
  rw [dropWhile_eq_self_of_head l (by
    intro x hx
    cases hc : (x == '-')
    · rfl
    · exact absurd (hx.trans (by rw [eq_of_beq hc])) hh)]
  rw [dropWhile_eq_self_of_head l.reverse (by
    intro x hx
    rw [List.head?_reverse] at hx
    cases hc : (x == '-')
    · rfl
    · exact absurd (hx.trans (by rw [eq_of_beq hc])) hl)]
  exact List.reverse_reverse l

theorem slugifyCore_chars (allowed : Char → Bool) (l : List Char) :
    ∀ c ∈ slugifyCore allowed l, allowed c = true ∨ c = '-' :=
  fun c hc =>
    hyphenate_mem allowed _ c (collapse_mem _ c (stripHyphens_mem _ c hc))

theorem slugifyCore_chain (allowed : Char → Bool) (l : List Char) :
    List.Chain' (fun a b => ¬(a = '-' ∧ b = '-')) (slugifyCore allowed l) :=
  stripHyphens_chain _ (collapse_chain _)

theorem slugifyCore_idem (allowed : Char → Bool)
    (hfix : ∀ c, allowed c = true → pyLower c = c) (l : List Char) :
    slugifyCore allowed (slugifyCore allowed l) = slugifyCore allowed l := by
  have hchars := slugifyCore_chars allowed l
  have hmap : (slugifyCore allowed l).map pyLower = slugifyCore allowed l := by
    refine map_id_of_mem _ _ fun c hc => ?_
    rcases hchars c hc with h | rfl
    · exact hfix c h
    · decide
  have hhyph : hyphenate allowed (slugifyCore allowed l) = slugifyCore allowed l := by
    refine map_id_of_mem _ _ fun c hc => ?_
    rcases hchars c hc with h | rfl
    · simp [h]
    · split <;> rfl
  have hcol : collapseHyphens (slugifyCore allowed l) = slugifyCore allowed l :=
    collapse_id _ (slugifyCore_chain allowed l)
  have hstrip : stripHyphens (slugifyCore allowed l) = slugifyCore allowed l :=
    stripHyphens_id _ (stripHyphens_head _) (stripHyphens_last _)
  show stripHyphens (collapseHyphens (hyphenate allowed ((slugifyCore allowed l).map pyLower)))
      = slugifyCore allowed l
  rw [hmap, hhyph, hcol, hstrip]

theorem isSlugChar_fix : ∀ c, isSlugChar c = true → pyLower c = c := by
  intro c h
  have hm : c ∈ slugChars := of_decide_eq_true h
  have hall : slugChars.all (fun c => pyLower c == c) = true := by decide
  exact eq_of_beq (List.all_eq_true.mp hall c hm)

theorem isSlugCharAscii_fix : ∀ c, isSlugCharAscii c = true → pyLower c = c := by
  intro c h
  have hm : c ∈ slugCharsAscii := of_decide_eq_true h
  have hall : slugCharsAscii.all (fun c => pyLower c == c) = true := by decide
  exact eq_of_beq (List.all_eq_true.mp hall c hm)

/-! ### Claim theorem for the identifier normalizer -/

/-- C4: both slugify variants are pure functions whose output consists of
characters of the variant's class separated by single hyphens (no two
adjacent hyphens), with no leading or trailing hyphen; both variants are
idempotent on every title; the ASCII-only variant maps "Café  at Noon!!"
to "caf-at-noon" (so does the localized one), and the localized variant
preserves ä/ö. -/
theorem slugify_normalizer_spec :
    (∀ t : String,
      ((slugify t).data.all (fun c => isSlugChar c || c == '-')) = true ∧
      List.Chain' (fun a b => ¬(a = '-' ∧ b = '-')) (slugify t).data ∧
      (slugify t).data.head? ≠ some '-' ∧
      (slugify t).data.getLast? ≠ some '-' ∧
      slugify (slugify t) = slugify t ∧
      ((slugifyAscii t).data.all (fun c => isSlugCharAscii c || c == '-')) = true ∧
      List.Chain' (fun a b => ¬(a = '-' ∧ b = '-')) (slugifyAscii t).data ∧
      (slugifyAscii t).data.head? ≠ some '-' ∧
      (slugifyAscii t).data.getLast? ≠ some '-' ∧
      slugifyAscii (slugifyAscii t) = slugifyAscii t) ∧
    slugifyAscii "Café  at Noon!!" = "caf-at-noon" ∧
    slugify "Café  at Noon!!" = "caf-at-noon" ∧
    slugify "Päivä Töissä!" = "päivä-töissä" := by
  refine ⟨fun t => ⟨?_, ?_, ?_, ?_, ?_, ?_, ?_, ?_, ?_, ?_⟩, by decide, by decide, by decide⟩
  · refine List.all_eq_true.mpr fun c hc => ?_
    rcases slugifyCore_chars isSlugChar t.data c hc with h | rfl
    · simp [h]
    · simp
  · exact slugifyCore_chain isSlugChar t.data
  · exact stripHyphens_head _
  · exact stripHyphens_last _
  · exact congrArg String.mk (slugifyCore_idem isSlugChar isSlugChar_fix t.data)
  · refine List.all_eq_true.mpr fun c hc => ?_
    rcases slugifyCore_chars isSlugCharAscii t.data c hc with h | rfl
    · simp [h]
    · simp
  · exact slugifyCore_chain isSlugCharAscii t.data
  · exact stripHyphens_head _
  · exact stripHyphens_last _
  · exact congrArg String.mk (slugifyCore_idem isSlugCharAscii isSlugCharAscii_fix t.data)

/-- C2 counterexample: an idea with 10 characters — not more than the
pool size, and whose (gender, age) pairs are exactly those of the 10
pool entries, so the attribute constraints are satisfiable by a perfect
matching — still receives a duplicated voice_id, because the pool holds
only 9 distinct voice_ids. -/
theorem assign_voice_ids_distinct_counterexample :
    chars10.length ≤ VOICES.length ∧
    chars10.map (fun c => (c.gender, c.age)) = VOICES.map (fun v => (some v.gender, v.age)) ∧
    poolIds.card = 9 ∧
    assign_voice_ids (fun _ => 0) [chars10] = [assignIdea (fun _ => 0) 0 chars10 ∅] ∧
    ¬ (assignIdea (fun _ => 0) 0 chars10 ∅).Nodup := by
  refine ⟨by decide, by decide, by decide, rfl, by decide⟩

/-! ### Podcast allow-list lemmas and claim theorem -/

theorem podFallback_mem (r : Nat) :
    podFallback r ∈ ALLOWED_PODCAST_CHARACTERS.map PodVoice.voice_id := by
  unfold podFallback
  rcases Nat.mod_two_eq_zero_or_one r with h | h
  · rw [show r % ALLOWED_PODCAST_CHARACTERS.length = r % 2 from rfl, h]
    decide
  · rw [show r % ALLOWED_PODCAST_CHARACTERS.length = r % 2 from rfl, h]
    decide

/-- C3: the podcast-restricted assignment is total (never raises) and
always yields a voice_id from the allow-list, never from the full pool;
a character whose name matches an allow-list entry case-insensitively
gets exactly that entry's voice_id; on a miss the result is the random
allow-list pick, and every allow-list entry is reachable by some draw. -/
theorem assign_podcast_allowlist (c : IdeaChar) (r : Nat) :
    assignPodcastVoice r c ∈ ALLOWED_PODCAST_CHARACTERS.map PodVoice.voice_id ∧
    (∀ v ∈ ALLOWED_PODCAST_CHARACTERS, sLower v.name = sLower (c.name.getD "") →
      assignPodcastVoice r c = v.voice_id) ∧
    ((∀ v ∈ ALLOWED_PODCAST_CHARACTERS, sLower v.name ≠ sLower (c.name.getD "")) →
      assignPodcastVoice r c = podFallback r) ∧
    (∀ v ∈ ALLOWED_PODCAST_CHARACTERS, ∃ r2, podFallback r2 = v.voice_id) := by
  refine ⟨?_, ?_, ?_, ?_⟩
  · cases h : voiceMapLookup (sLower (c.name.getD "")) with
    | none => simpa [assignPodcastVoice, h] using podFallback_mem r
    | some vid =>
      obtain ⟨w, hw, hwid⟩ := Option.map_eq_some'.mp h
      have hwmem : w ∈ ALLOWED_PODCAST_CHARACTERS :=
        List.mem_reverse.mp (List.mem_of_find?_eq_some hw)
      by_cases hemp : vid = ""
      · simpa [assignPodcastVoice, h, hemp] using podFallback_mem r
      · simp only [assignPodcastVoice, h, if_neg hemp]
        exact List.mem_map.mpr ⟨w, hwmem, hwid⟩
  · intro v hv hname
    simp only [ALLOWED_PODCAST_CHARACTERS, List.mem_cons, List.not_mem_nil, or_false] at hv
    rcases hv with rfl | rfl
    · have hkey : sLower (c.name.getD "") = "aurora" := by
        rw [← hname]; decide
      simp only [assignPodcastVoice, hkey]
      rfl
    · have hkey : sLower (c.name.getD "") = "jussi" := by
        rw [← hname]; decide
      simp only [assignPodcastVoice, hkey]
      rfl
  · intro hmiss
    have hnone : voiceMapLookup (sLower (c.name.getD "")) = none := by
      unfold voiceMapLookup
      rw [List.find?_eq_none.mpr]
      · rfl
      · intro v hv
        have := hmiss v (List.mem_reverse.mp hv)
        simpa using this
    simp [assignPodcastVoice, hnone]
  · intro v hv
    simp only [ALLOWED_PODCAST_CHARACTERS, List.mem_cons, List.not_mem_nil, or_false] at hv
    rcases hv with rfl | rfl
    · exact ⟨0, by decide⟩
    · exact ⟨1, by decide⟩

/-- C3 witness: the character named "AURORA" matches the allow-list entry
"Aurora" case-insensitively and receives exactly that entry's voice_id,
for an arbitrary random draw. -/
theorem assign_podcast_allowlist_witness :
    assignPodcastVoice 5 podCharW = "YSabzCJMvEHDduIDMdwV" :=
  (assign_podcast_allowlist podCharW 5).2.1
    ⟨"Aurora", "female", "young adult", "YSabzCJMvEHDduIDMdwV"⟩ (by decide) (by decide)

/-! ### Asset matcher claim theorem -/

/-- C5: the asset matcher returns exactly the set intersection of the
(filtered) file stems of the two directories; it is duplicate-free (a
`Finset`, as Python's `set`), order-independent in both directory
listings, and stems present in only one directory are simply absent from
the result; stems {a,b,c} and {b,c,d} yield {b,c}. -/
theorem common_names_spec :
    (∀ (a b : List DirFile) (s : String),
      s ∈ common_names a b ↔ s ∈ illustrationStems a ∧ s ∈ mp3Stems b) ∧
    (∀ (a a2 b b2 : List DirFile), a.Perm a2 → b.Perm b2 →
      common_names a b = common_names a2 b2) ∧
    common_names exampleDirA exampleDirB = {"b", "c"} ∧
    "a" ∉ common_names exampleDirA exampleDirB ∧
    "d" ∉ common_names exampleDirA exampleDirB := by
  refine ⟨?_, ?_, by decide, by decide, by decide⟩
  · intro a b s
    exact Finset.mem_inter
  · intro a a2 b b2 ha hb
    unfold common_names illustrationStems mp3Stems
    ext s
    simp only [Finset.mem_inter, List.mem_toFinset, List.mem_map, List.mem_filter,
      ha.mem_iff, hb.mem_iff]

/-- C5 witness: listing the directories in a different order leaves the
matcher's result unchanged. -/
theorem common_names_spec_witness :
    common_names exampleDirA.reverse exampleDirB.reverse =
      common_names exampleDirA exampleDirB :=
  common_names_spec.2.1 exampleDirA.reverse exampleDirA exampleDirB.reverse exampleDirB
    (by decide) (by decide)

/-! ### Script-generation stage and TTS loader claim theorems -/

theorem generate_conversation_ok (idea : IdeaJ) (o : GenOutcome)
    (hne2 : (idea.characters.getD []).isEmpty = false)
    (hnames : (idea.characters.getD []).find? (fun c => c.name.isNone) = none)
    (htitle : idea.title.isSome) (hdesc : idea.description.isSome) :
    ∃ conv, generate_conversation idea o = .ok conv := by
  obtain ⟨t, ht⟩ := Option.isSome_iff_exists.mp htitle
  obtain ⟨d, hd⟩ := Option.isSome_iff_exists.mp hdesc
  cases o with
  | apiError m =>
    exact ⟨⟨some [], some ("API Error: " ++ m)⟩,
      by simp [generate_conversation, hne2, hnames, ht, hd]⟩
  | badJson raw =>
    exact ⟨⟨some [], some raw⟩, by simp [generate_conversation, hne2, hnames, ht, hd]⟩
  | parsed r =>
    exact ⟨r, by simp [generate_conversation, hne2, hnames, ht, hd]⟩

/-- C6 counterexample: a failing transform (here an APIError, equally a
malformed response) is captured as an explicit `error` field of the
*returned* result, but the file persisted by `save_scripts` consists of
exactly the keys metadata, idea and dialogue_list: it carries *no*
`error` field, so no downstream reader can detect a persisted error
marker; only the empty dialogue_list survives persistence. -/
theorem save_scripts_error_dropped_counterexample :
    generate_conversation ideaGoodW (.apiError "boom") =
      .ok ⟨some [], some "API Error: boom"⟩ ∧
    save_scripts "Kahvilassa" "conversation" (ideaToJVal ideaGoodW) metaW
        ⟨some [], some "API Error: boom"⟩ =
      .ok ("scripts" ++ "/" ++ slugify "Kahvilassa" ++ ".json",
        [("metadata", metaW), ("idea", ideaToJVal ideaGoodW),
         ("dialogue_list", JVal.arr [])]) ∧
    List.lookup "error"
      [("metadata", metaW), ("idea", ideaToJVal ideaGoodW),
       ("dialogue_list", JVal.arr [])] = none := by
  exact ⟨rfl, rfl, rfl⟩

/-- C6 (amended): for every API error or malformed-response failure on a
well-formed idea, the failure is captured in the returned result as an
explicit error field next to an empty dialogue_list; the persisted
per-item file keeps only metadata, idea and the empty dialogue_list (no
error field), and a downstream reader (the TTS loader) skips the item
because its persisted dialogue_list is empty. -/
theorem generation_failure_marker (idea : IdeaJ) (title : String) (metadata : JVal)
    (m : String) (b : Bool)
    (hne2 : (idea.characters.getD []).isEmpty = false)
    (hnames : (idea.characters.getD []).find? (fun c => c.name.isNone) = none)
    (htitle : idea.title.isSome) (hdesc : idea.description.isSome) :
    generate_conversation idea (if b then .apiError m else .badJson m) =
      .ok ⟨some [], some (if b then "API Error: " ++ m else m)⟩ ∧
    save_scripts title "conversation" (ideaToJVal idea) metadata
        ⟨some [], some (if b then "API Error: " ++ m else m)⟩ =
      .ok ("scripts" ++ "/" ++ slugify title ++ ".json",
        [("metadata", metadata), ("idea", ideaToJVal idea),
         ("dialogue_list", JVal.arr [])]) ∧
    List.lookup "error"
      [("metadata", metadata), ("idea", ideaToJVal idea),
       ("dialogue_list", JVal.arr [])] = none ∧
    List.lookup "dialogue_list"
      [("metadata", metadata), ("idea", ideaToJVal idea),
       ("dialogue_list", JVal.arr [])] = some (JVal.arr []) ∧
    load_dialogue_data (some (some
      [("metadata", metadata), ("idea", ideaToJVal idea),
       ("dialogue_list", JVal.arr [])])) = none ∧
    process_script (some (some
      [("metadata", metadata), ("idea", ideaToJVal idea),
       ("dialogue_list", JVal.arr [])])) = none := by
  obtain ⟨t, ht⟩ := Option.isSome_iff_exists.mp htitle
  obtain ⟨d, hd⟩ := Option.isSome_iff_exists.mp hdesc
  refine ⟨?_, ?_, rfl, rfl, rfl, rfl⟩
  · cases b <;> simp [generate_conversation, hne2, hnames, ht, hd]
  · simp [save_scripts]

/-- C6 witness: concrete failing generation for the valid idea
"Kahvilassa"; the persisted object carries no error key and the TTS
loader skips it. -/
theorem generation_failure_marker_witness :
    generate_conversation ideaGoodW (.apiError "boom") =
      .ok ⟨some [], some "API Error: boom"⟩ ∧
    List.lookup "error"
      [("metadata", metaW), ("idea", ideaToJVal ideaGoodW),
       ("dialogue_list", JVal.arr [])] = none ∧
    load_dialogue_data (some (some
      [("metadata", metaW), ("idea", ideaToJVal ideaGoodW),
       ("dialogue_list", JVal.arr [])])) = none := by
  have h := generation_failure_marker ideaGoodW "Kahvilassa" metaW "boom" true
    rfl rfl rfl rfl
  exact ⟨h.1, h.2.2.1, h.2.2.2.2.1⟩

theorem process_ideas_loop_ok (outcomes : Nat → GenOutcome) (metadata : JVal) :
    ∀ (ideas : List IdeaJ) (n : Nat),
      (∀ idea ∈ ideas, idea.title.isSome ∧ idea.description.isSome ∧
        (idea.characters.getD []).isEmpty = false ∧
        (idea.characters.getD []).find? (fun c => c.name.isNone) = none) →
      ∃ res, process_ideas_loop outcomes metadata "conversation" n ideas = .ok res ∧
        res.length = ideas.length := by
  intro ideas
  induction ideas with
  | nil => intro n _; exact ⟨[], rfl, rfl⟩
  | cons idea rest ih =>
    intro n hvalid
    obtain ⟨htitle, hdesc, hne2, hnames⟩ := hvalid idea (List.mem_cons_self _ _)
    obtain ⟨t, ht⟩ := Option.isSome_iff_exists.mp htitle
    obtain ⟨conv, hconv⟩ := generate_conversation_ok idea (outcomes n) hne2 hnames htitle hdesc
    obtain ⟨res, hres, hlen⟩ := ih (n + 1) (fun i hi => hvalid i (List.mem_cons_of_mem _ hi))
    refine ⟨("scripts" ++ "/" ++ slugify t ++ ".json",
      [("metadata", metadata), ("idea", ideaToJVal idea),
       ("dialogue_list", JVal.arr (conv.dialogue_list.getD []))]) :: res, ?_, by simp [hlen]⟩
    simp only [process_ideas_loop, ht, hconv, hres]
    simp [save_scripts]

/-- C7 counterexample: an idea with an empty characters list raises a
ValueError inside `generate_conversation` that nothing in
`process_ideas_file` catches, so the stage aborts before the second —
perfectly processable — idea; with the bad idea removed the stage
completes. -/
theorem process_ideas_abort_counterexample :
    process_ideas_file outcomesOkW metaW "conversation" [ideaNoCharsW, ideaGoodW] =
      .error (.valueError
        "Idea must contain a 'characters' list with 'name' and 'voice_id'.") ∧
    (process_ideas_file outcomesOkW metaW "conversation" [ideaGoodW]).isOk = true := by
  exact ⟨rfl, rfl⟩

/-- C7 (amended): collaborator failures (API error, malformed response)
are captured per item inside `generate_conversation` and never abort the
stage: for every outcome stream, a list of ideas that all carry a title,
a description and a non-empty characters list of named characters is
processed to completion, one persisted file per idea, in input order.
But there is no try/except around the loop body, so an idea with an
empty or missing characters list (ValueError), or with a missing
title/description key or an unnamed character (KeyError), aborts the
stage and leaves the remaining items unprocessed. -/
theorem process_ideas_isolation (outcomes : Nat → GenOutcome) (metadata : JVal)
    (ideas : List IdeaJ)
    (hvalid : ∀ idea ∈ ideas, idea.title.isSome ∧ idea.description.isSome ∧
      (idea.characters.getD []).isEmpty = false ∧
      (idea.characters.getD []).find? (fun c => c.name.isNone) = none) :
    ∃ res, process_ideas_file outcomes metadata "conversation" ideas = .ok res ∧
      res.length = ideas.length :=
  process_ideas_loop_ok outcomes metadata ideas 0 hvalid

/-- C7 witness: even when every API call fails, the stage completes and
persists one file for the valid idea. -/
theorem process_ideas_isolation_witness :
    ∃ res, process_ideas_file (fun _ => .apiError "service down") metaW "conversation"
      [ideaGoodW] = .ok res ∧ res.length = 1 :=
  process_ideas_isolation (fun _ => .apiError "service down") metaW [ideaGoodW]
    (by
      intro idea hi
      rcases List.mem_singleton.mp hi with rfl
      exact ⟨rfl, rfl, rfl, rfl⟩)

/-- C10: for every script file whose parsed object lacks the
dialogue_list key or maps it to an empty list, `load_dialogue_data`
returns the skip marker None (the ValueError it raises is caught inside),
and `process_scripts_directory` therefore never calls the TTS API nor
writes an audio file for that script; both functions are total, so no
exception propagates. -/
theorem load_dialogue_data_skip (data : List (String × JVal))
    (h : List.lookup "dialogue_list" data = none ∨
         List.lookup "dialogue_list" data = some (JVal.arr [])) :
    load_dialogue_data (some (some data)) = none ∧
    process_script (some (some data)) = none := by
  rcases h with h | h <;> simp [load_dialogue_data, process_script, h, jTruthy]

/-- C10 witness: a script persisted after a failed upstream generation
carries an empty dialogue_list and is skipped by the TTS stage. -/
theorem load_dialogue_data_skip_witness :
    load_dialogue_data (some (some
      [("metadata", metaW), ("dialogue_list", JVal.arr [])])) = none ∧
    process_script (some (some
      [("metadata", metaW), ("dialogue_list", JVal.arr [])])) = none :=
  load_dialogue_data_skip _ (Or.inr rfl)

/-! ### Video pipeline lemmas -/

theorem generate_subtitles_paths (beh : SubtitleBeh) (v : VideoFile) (fs : Finset FPath) :
    ∀ p ∈ generate_subtitles beh v fs,
      p ∈ fs ∨ p = FPath.temp v ∨ p = FPath.assSource v.stem := by
  intro p hp
  unfold generate_subtitles at hp
  by_cases hA : beh.producesAss <;> by_cases hT : beh.producesTemp <;>
    simp [hA, hT, Finset.mem_insert] at hp <;> tauto

theorem mem_mix_ok (beh : MixBeh) (v : VideoFile) (fs fs3 : Finset FPath)
    (h : add_background_music beh v fs = .ok fs3) :
    ∀ p ∈ fs3, p ∈ fs ∨ p = FPath.final v := by
  intro p hp
  unfold add_background_music at h
  split at h
  · simp at h
  · injection h with h
    subst h
    by_cases hf : beh.producesFinal <;> simp [hf, Finset.mem_insert] at hp <;> tauto

theorem mem_moveAss (v : VideoFile) (fs : Finset FPath) :
    ∀ p ∈ moveAss v fs, p ∈ fs ∨ p = FPath.assTarget v.stem := by
  intro p hp
  unfold moveAss at hp
  split at hp
  · rcases Finset.mem_insert.mp hp with rfl | hp2
    · exact Or.inr rfl
    · exact Or.inl (Finset.mem_of_mem_erase hp2)
  · exact Or.inl hp

theorem process_one_paths (col : Collab) (v : VideoFile) (fs fs2 : Finset FPath)
    (h : process_one col v fs = .ok fs2) :
    ∀ p ∈ fs2, p ∈ fs ∨ itemPath v p := by
  intro p hp
  unfold process_one at h
  split at h
  · injection h with h
    subst h
    rcases generate_subtitles_paths _ _ _ p hp with h1 | h1 | h1
    · exact Or.inl h1
    · exact Or.inr (Or.inl h1)
    · exact Or.inr (Or.inr (Or.inr (Or.inl h1)))
  · cases hmix : add_background_music (col.mix v) v (generate_subtitles (col.sub v) v fs) with
    | error fsE => rw [hmix] at h; simp at h
    | ok fs3 =>
      rw [hmix] at h
      injection h with h
      subst h
      have hp1 : p ∈ moveAss v fs3 := Finset.mem_of_mem_erase hp
      rcases mem_moveAss v fs3 p hp1 with hp2 | rfl
      · rcases mem_mix_ok _ _ _ _ hmix p hp2 with hp3 | rfl
        · rcases generate_subtitles_paths _ _ _ p hp3 with h1 | h1 | h1
          · exact Or.inl h1
          · exact Or.inr (Or.inl h1)
          · exact Or.inr (Or.inr (Or.inr (Or.inl h1)))
        · exact Or.inr (Or.inr (Or.inl rfl))
      · exact Or.inr (Or.inr (Or.inr (Or.inr rfl)))

theorem batch_loop_paths (col : Collab) :
    ∀ (videos : List VideoFile) (fs fsL : Finset FPath),
      batch_loop col videos fs = .ok fsL →
      ∀ p ∈ fsL, p ∈ fs ∨ ∃ w ∈ videos, itemPath w p := by
  intro videos
  induction videos with
  | nil =>
    intro fs fsL h p hp
    injection h with h
    subst h
    exact Or.inl hp
  | cons v rest ih =>
    intro fs fsL h p hp
    simp only [batch_loop] at h
    cases hone : process_one col v fs with
    | error fsE => rw [hone] at h; simp at h
    | ok fs2 =>
      rw [hone] at h
      rcases ih fs2 fsL h p hp with hp2 | ⟨w, hw, hcase⟩
      · rcases process_one_paths col v fs fs2 hone p hp2 with h1 | h1
        · exact Or.inl h1
        · exact Or.inr ⟨v, List.mem_cons_self _ _, h1⟩
      · exact Or.inr ⟨w, List.mem_cons_of_mem _ hw, hcase⟩

/-! ### Claim theorems for the video pipeline -/

/-- C8: when the subtitling collaborator fails to produce the temp output
for a video, the item is aborted: `process_one` returns with only the
subtitler's side effects (no mixing), the final output path for that item
exists afterwards only if it existed before (here: it does not), the item
is not retried, the batch continues with the remaining videos without
crashing, and the item has no entry in the final output directory at the
end of the batch. -/
theorem subtitling_postcondition_abort (col : Collab) (v : VideoFile)
    (rest : List VideoFile) (fs : Finset FPath)
    (hnoTemp : (col.sub v).producesTemp = false)
    (htempfs : FPath.temp v ∉ fs)
    (hfinalfs : FPath.final v ∉ fs)
    (hdistinct : ∀ w ∈ rest, w ≠ v) :
    process_one col v fs = .ok (generate_subtitles (col.sub v) v fs) ∧
    FPath.final v ∉ generate_subtitles (col.sub v) v fs ∧
    FPath.temp v ∉ generate_subtitles (col.sub v) v fs ∧
    batch_loop col (v :: rest) fs =
      batch_loop col rest (generate_subtitles (col.sub v) v fs) ∧
    ∀ fsEnd, batch_process_videos col (v :: rest) fs = .ok fsEnd →
      FPath.final v ∉ fsEnd := by
  have hT : FPath.temp v ∉ generate_subtitles (col.sub v) v fs := by
    unfold generate_subtitles
    rw [hnoTemp]
    by_cases hA : (col.sub v).producesAss <;> simp [hA, htempfs]
  have hF : FPath.final v ∉ generate_subtitles (col.sub v) v fs := by
    unfold generate_subtitles
    rw [hnoTemp]
    by_cases hA : (col.sub v).producesAss <;> simp [hA, hfinalfs]
  have hp1 : process_one col v fs = .ok (generate_subtitles (col.sub v) v fs) := by
    unfold process_one
    rw [if_pos hT]
  have hloop : batch_loop col (v :: rest) fs =
      batch_loop col rest (generate_subtitles (col.sub v) v fs) := by
    simp only [batch_loop, hp1]
  refine ⟨hp1, hF, hT, hloop, ?_⟩
  intro fsEnd hEnd hmem
  unfold batch_process_videos at hEnd
  cases hbl : batch_loop col (v :: rest) fs with
  | error fsE => rw [hbl] at hEnd; simp at hEnd
  | ok fsL =>
    rw [hbl] at hEnd
    injection hEnd with hEnd
    subst hEnd
    have hmem2 : FPath.final v ∈ fsL := (Finset.mem_filter.mp hmem).1
    rw [hloop] at hbl
    rcases batch_loop_paths col rest _ fsL hbl _ hmem2 with h1 | ⟨w, hw, hcase⟩
    · exact hF h1
    · rcases hcase with h | h | h | h
      · simp at h
      · injection h with h
        exact hdistinct w hw h.symm
      · simp at h
      · simp at h

/-- C8 witness: with a subtitler that fails only for cafe.mp4, the batch
over [cafe.mp4, tram.mp4] finishes, cafe has no final output, and
tram.mp4 is still processed to a final output. -/
theorem subtitling_postcondition_abort_witness :
    batch_process_videos colAbortW [cafeVideo, tramVideo] ∅ = .ok fsEndW ∧
    FPath.final cafeVideo ∉ fsEndW ∧
    FPath.final tramVideo ∈ fsEndW ∧
    process_one colAbortW cafeVideo ∅ =
      .ok (generate_subtitles (colAbortW.sub cafeVideo) cafeVideo ∅) := by
  have h := subtitling_postcondition_abort colAbortW cafeVideo [tramVideo] ∅
    (by decide) (by decide) (by decide) (by decide)
  exact ⟨by decide, h.2.2.2.2 fsEndW (by decide), by decide, h.1⟩

/-- C9 counterexample: if the mixing collaborator raises for cafe.mp4,
the exception escapes the loop (there is no try/finally): the cleanup
does not execute on that exit path, the temporary subtitled file still
exists in the crash state, the batch does not complete, and the
temporary-processing directory is never deleted. -/
theorem cleanup_not_guaranteed_counterexample :
    batch_process_videos colRaiseW [cafeVideo] ∅ =
      .error (insert (FPath.assSource "cafe") {FPath.temp cafeVideo}) ∧
    FPath.temp cafeVideo ∈
      insert (FPath.assSource "cafe") ({FPath.temp cafeVideo} : Finset FPath) ∧
    (batch_process_videos colRaiseW [cafeVideo] ∅).isOk = false := by
  exact ⟨by decide, by decide, by decide⟩

/-- C9 (amended): whenever an item's processing completes normally
(mixing returned — as the mixing collaborator's documented interface
guarantees, it catches its own failures — or the item was aborted at the
subtitling postcondition), the item's temporary subtitled file does not
exist afterwards; and when the mixer never raises, the whole batch
completes and after it no temporary file whatsoever remains (the
temporary-processing directory is deleted).  Cleanup is sequential code
after the mixing call, not a guaranteed-on-raise finally block. -/
theorem cleanup_invariant (col : Collab)
    (hsafe : ∀ w : VideoFile, (col.mix w).raises = false) :
    (∀ (v : VideoFile) (fs fs2 : Finset FPath), process_one col v fs = .ok fs2 →
      FPath.temp v ∉ fs2) ∧
    (∀ (videos : List VideoFile) (fs : Finset FPath),
      ∃ fsEnd, batch_process_videos col videos fs = .ok fsEnd ∧
        ∀ w : VideoFile, FPath.temp w ∉ fsEnd) := by
  constructor
  · intro v fs fs2 h
    unfold process_one at h
    split at h
    · next hcond =>
      injection h with h
      subst h
      exact hcond
    · cases hmix : add_background_music (col.mix v) v (generate_subtitles (col.sub v) v fs) with
      | error fsE => rw [hmix] at h; simp at h
      | ok fs3 =>
        rw [hmix] at h
        injection h with h
        subst h
        exact Finset.not_mem_erase _ _
  · have hone : ∀ (v : VideoFile) (fs : Finset FPath),
        ∃ fs2, process_one col v fs = .ok fs2 := by
      intro v fs
      unfold process_one
      split
      · exact ⟨_, rfl⟩
      · unfold add_background_music
        rw [hsafe v]
        exact ⟨_, rfl⟩
    have hloopok : ∀ (vs : List VideoFile) (fs : Finset FPath),
        ∃ fsL, batch_loop col vs fs = .ok fsL := by
      intro vs
      induction vs with
      | nil => intro fs; exact ⟨fs, rfl⟩
      | cons v rest ih =>
        intro fs
        obtain ⟨fs2, h2⟩ := hone v fs
        obtain ⟨fsL, hL⟩ := ih fs2
        refine ⟨fsL, ?_⟩
        simp only [batch_loop, h2]
        exact hL
    intro videos fs
    obtain ⟨fsL, hL⟩ := hloopok videos fs
    refine ⟨rmtreeTemp fsL, ?_, ?_⟩
    · unfold batch_process_videos
      rw [hL]
    · intro w hmem
      have h2 := (Finset.mem_filter.mp hmem).2
      simp [isTempFile] at h2

/-- C9 witness: with a returning mixer, processing cafe.mp4 completes and
its temporary subtitled file is gone. -/
theorem cleanup_invariant_witness :
    process_one colOkW cafeVideo ∅ = .ok fsAfterW ∧
    FPath.temp cafeVideo ∉ fsAfterW := by
  have heq : process_one colOkW cafeVideo ∅ = .ok fsAfterW := by decide
  exact ⟨heq, (cleanup_invariant colOkW (fun w => rfl)).1 cafeVideo ∅ fsAfterW heq⟩

end Kielo
